import Mathlib

/-! xiaomi_controller: the report translation engine.

Shallow embedding of `scale_axis` and `parse_and_map_report` from `src/main.cpp`
together with the properties of the natural-language specification.

Conventions of the embedding.

* The program is a Windows program: `long`/`LONG` is a 32-bit two's complement
  integer, `ULONG` a 32-bit unsigned integer, `SHORT` 16-bit signed, `USHORT`
  (and `USAGE`) 16-bit unsigned and `BYTE` 8-bit unsigned.  Values are carried
  as `Int`/`Nat`; every machine operation that can leave its type is followed
  by the explicit reduction (`toLong`, `toULong`, `toShort`, `toByte`).
* `double` is IEEE 754 binary64 with round-to-nearest, ties-to-even.  A finite
  double is carried as the rational number it denotes and every arithmetic
  operation is the exact rational operation followed by `roundDouble`.  All
  magnitudes that occur with 32-bit operands stay far inside the normal range
  of binary64, so exponent overflow and subnormals are not modelled.
* A floating-point division by zero and a `double -> long` conversion whose
  truncated value does not fit a `long` have no defined result in C++; the
  embedding reports them as a `Fault`.
* The results of the HID parser calls (`HidP_GetUsages`, `HidP_GetValueCaps`,
  `HidP_GetUsageValue`) are inputs of the embedding (`DecodedInput`).
-/

namespace XiaomiController

/-! ## Machine integers -/

/-- Reduction of an integer to a 32-bit two's complement `long`. -/
def toLong (x : Int) : Int := (x + 2147483648) % 4294967296 - 2147483648

/-- Reduction of an integer to a 32-bit `ULONG` (`static_cast<ULONG>`). -/
def toULong (x : Int) : Nat := (x % 4294967296).toNat

/-- Reduction of an integer to a 16-bit signed `SHORT` (`static_cast<SHORT>`). -/
def toShort (x : Int) : Int := (x + 32768) % 65536 - 32768

/-- Reduction of an integer to an 8-bit `BYTE` (`static_cast<BYTE>`). -/
def toByte (x : Int) : Nat := (x % 256).toNat

/-- The values of the type `long`. -/
def isLong (x : Int) : Prop := -2147483648 ≤ x ∧ x ≤ 2147483647

instance (x : Int) : Decidable (isLong x) := by
  unfold isLong; infer_instance

/-! ## IEEE 754 binary64 arithmetic -/

/-- Rounding of a rational to the nearest integer, ties to the even integer. -/
def rne (x : ℚ) : ℤ :=
  let f := ⌊x⌋
  if x - f < 1 / 2 then f
  else if 1 / 2 < x - f then f + 1
  else if f % 2 = 0 then f else f + 1

/-- Rounding of a rational to the nearest binary64 number (53-bit significand,
round-to-nearest, ties-to-even), for magnitudes in the normal range. -/
def roundDouble (q : ℚ) : ℚ :=
  if q = 0 then 0
  else
    let e : ℤ := Int.log 2 |q| - 52
    (rne (q / (2 : ℚ) ^ e) : ℚ) * (2 : ℚ) ^ e

/-- The operations of the program that have no defined result. -/
inductive Fault where
  | divByZero
  | castOutOfRange
  deriving DecidableEq, Repr

/-- Division of two doubles. -/
def fdiv (a b : ℚ) : Except Fault ℚ :=
  if b = 0 then .error .divByZero else .ok (roundDouble (a / b))

/-- Product of two doubles. -/
def fmul (a b : ℚ) : ℚ := roundDouble (a * b)

/-- Sum of two doubles. -/
def fadd (a b : ℚ) : ℚ := roundDouble (a + b)

/-- Truncation of a rational toward zero. -/
def truncQ (x : ℚ) : ℤ := if 0 ≤ x then ⌊x⌋ else ⌈x⌉

/-- Conversion `static_cast<long>(double)`: truncation toward zero, defined
only when the truncated value is a `long`. -/
def doubleToLong (x : ℚ) : Except Fault Int :=
  if -2147483648 ≤ truncQ x ∧ truncQ x ≤ 2147483647 then .ok (truncQ x)
  else .error .castOutOfRange

/-! ## Axis scaler -/

/-- The function `scale_axis` of `src/main.cpp`.  The integer divisions are the
truncating divisions of C++; `std::llabs` is taken of a 64-bit difference of two
32-bit values, which cannot overflow; the three floating-point operations are
rounded one by one. -/
def scale_axis (value hid_min hid_max xbox_min xbox_max : Int) : Except Fault Int :=
  let hid_range := toLong (hid_max - hid_min)
  if hid_range = 0 then .ok (Int.tdiv (toLong (xbox_max + xbox_min)) 2)
  else
    let xbox_range := toLong (xbox_max - xbox_min)
    let hid_center := toLong (hid_min + Int.tdiv hid_range 2)
    let deadzone := Int.tdiv hid_range 10
    if |value - hid_center| < deadzone then
      .ok (Int.tdiv (toLong (xbox_max + xbox_min)) 2)
    else
      match fdiv ((toLong (value - hid_min) : Int) : ℚ) (hid_range : ℚ) with
      | .error f => .error f
      | .ok normalized_value =>
        doubleToLong (fadd (fmul normalized_value (xbox_range : ℚ)) (xbox_min : ℚ))

/-- The interpolation of `scale_axis` in double arithmetic, before the
conversion to `long`: `normalized_value * xbox_range + xbox_min`, for the
integers `a = value - hid_min` and `b = hid_range`. -/
def interp (a b xbox_range xbox_min : ℤ) : ℚ :=
  fadd (fmul (roundDouble ((a : ℚ) / (b : ℚ))) (xbox_range : ℚ)) (xbox_min : ℚ)

/-! ## Output report -/

/-- The output report `XUSB_REPORT` of the virtual controller: button bitmask
(`USHORT`), two triggers (`BYTE`) and four stick axes (`SHORT`). -/
structure XUSB_REPORT where
  wButtons : Nat
  bLeftTrigger : Nat
  bRightTrigger : Nat
  sThumbLX : Int
  sThumbLY : Int
  sThumbRX : Int
  sThumbRY : Int
  deriving DecidableEq, Repr

/-! The button bits of `XUSB_BUTTON`, declared in the header `ViGEm/Common.h`
of the ViGEm client library that `src/main.cpp` includes. -/

def XUSB_GAMEPAD_DPAD_UP : Nat := 0x0001
def XUSB_GAMEPAD_DPAD_DOWN : Nat := 0x0002
def XUSB_GAMEPAD_DPAD_LEFT : Nat := 0x0004
def XUSB_GAMEPAD_DPAD_RIGHT : Nat := 0x0008
def XUSB_GAMEPAD_START : Nat := 0x0010
def XUSB_GAMEPAD_BACK : Nat := 0x0020
def XUSB_GAMEPAD_LEFT_THUMB : Nat := 0x0040
def XUSB_GAMEPAD_RIGHT_THUMB : Nat := 0x0080
def XUSB_GAMEPAD_LEFT_SHOULDER : Nat := 0x0100
def XUSB_GAMEPAD_RIGHT_SHOULDER : Nat := 0x0200
def XUSB_GAMEPAD_A : Nat := 0x1000
def XUSB_GAMEPAD_B : Nat := 0x2000
def XUSB_GAMEPAD_X : Nat := 0x4000
def XUSB_GAMEPAD_Y : Nat := 0x8000

/-- The four directional bits of `wButtons`. -/
def dpadMask : Nat := 0x000F

/-! ## Decoded input -/

/-- One entry of the value capability table for the current report: the usage
(`IsRange ? Range.UsageMin : NotRange.Usage`), the result of
`HidP_GetUsageValue` for that usage (`none` when the call does not return
`HIDP_STATUS_SUCCESS`), and the declared logical range. -/
structure ValueCap where
  usage : Nat
  value : Option Nat
  LogicalMin : Int
  LogicalMax : Int
  deriving DecidableEq, Repr

/-- What the HID parser yields for one raw report: the asserted usages of the
button page (`usageList[0 .. usageLength)`; empty when there is no button
capability or a parser call fails) and the value capability entries in table
order (empty when there is none or `HidP_GetValueCaps` fails). -/
structure DecodedInput where
  usages : List Nat
  values : List ValueCap
  deriving DecidableEq, Repr

/-! ## Control mapper -/

/-- The body of the button loop: `switch (u)` over one asserted usage. -/
def mapButton (xbox_report : XUSB_REPORT) (u : Nat) : XUSB_REPORT :=
  match u with
  | 1 => { xbox_report with wButtons := xbox_report.wButtons ||| XUSB_GAMEPAD_A }
  | 2 => { xbox_report with wButtons := xbox_report.wButtons ||| XUSB_GAMEPAD_B }
  | 4 => { xbox_report with wButtons := xbox_report.wButtons ||| XUSB_GAMEPAD_X }
  | 5 => { xbox_report with wButtons := xbox_report.wButtons ||| XUSB_GAMEPAD_Y }
  | 7 => { xbox_report with wButtons := xbox_report.wButtons ||| XUSB_GAMEPAD_LEFT_SHOULDER }
  | 8 => { xbox_report with wButtons := xbox_report.wButtons ||| XUSB_GAMEPAD_RIGHT_SHOULDER }
  | 11 => { xbox_report with wButtons := xbox_report.wButtons ||| XUSB_GAMEPAD_BACK }
  | 12 => { xbox_report with wButtons := xbox_report.wButtons ||| XUSB_GAMEPAD_START }
  | 14 => { xbox_report with wButtons := xbox_report.wButtons ||| XUSB_GAMEPAD_LEFT_THUMB }
  | 15 => { xbox_report with wButtons := xbox_report.wButtons ||| XUSB_GAMEPAD_RIGHT_THUMB }
  | _ => xbox_report

/-- The inner `switch (value)` of the hat switch case. -/
def mapHat (xbox_report : XUSB_REPORT) (value : Nat) : XUSB_REPORT :=
  match value with
  | 0 => { xbox_report with wButtons := xbox_report.wButtons ||| XUSB_GAMEPAD_DPAD_UP }
  | 1 => { xbox_report with
      wButtons := xbox_report.wButtons ||| (XUSB_GAMEPAD_DPAD_UP ||| XUSB_GAMEPAD_DPAD_RIGHT) }
  | 2 => { xbox_report with wButtons := xbox_report.wButtons ||| XUSB_GAMEPAD_DPAD_RIGHT }
  | 3 => { xbox_report with
      wButtons := xbox_report.wButtons ||| (XUSB_GAMEPAD_DPAD_DOWN ||| XUSB_GAMEPAD_DPAD_RIGHT) }
  | 4 => { xbox_report with wButtons := xbox_report.wButtons ||| XUSB_GAMEPAD_DPAD_DOWN }
  | 5 => { xbox_report with
      wButtons := xbox_report.wButtons ||| (XUSB_GAMEPAD_DPAD_DOWN ||| XUSB_GAMEPAD_DPAD_LEFT) }
  | 6 => { xbox_report with wButtons := xbox_report.wButtons ||| XUSB_GAMEPAD_DPAD_LEFT }
  | 7 => { xbox_report with
      wButtons := xbox_report.wButtons ||| (XUSB_GAMEPAD_DPAD_UP ||| XUSB_GAMEPAD_DPAD_LEFT) }
  | _ => xbox_report

/-- The `switch (usage)` of the value loop for a usage whose value was
extracted; `lmin`/`lmax` are `v_cap.LogicalMin`/`v_cap.LogicalMax`. -/
def mapUsage (xbox_report : XUSB_REPORT) (usage value : Nat) (lmin lmax : Int) :
    Except Fault XUSB_REPORT :=
  match usage with
  | 0x30 =>
    match scale_axis (toLong value) lmin lmax (-32768) 32767 with
    | .error f => .error f
    | .ok s => .ok { xbox_report with sThumbLX := toShort s }
  | 0x31 =>
    match scale_axis (toLong value) lmin lmax (-32768) 32767 with
    | .error f => .error f
    | .ok s => .ok { xbox_report with sThumbLY := toShort (toLong (-s)) }
  | 0x32 =>
    match scale_axis (toLong value) lmin lmax (-32768) 32767 with
    | .error f => .error f
    | .ok s => .ok { xbox_report with sThumbRX := toShort s }
  | 0x35 =>
    match scale_axis (toLong value) lmin lmax (-32768) 32767 with
    | .error f => .error f
    | .ok s => .ok { xbox_report with sThumbRY := toShort (toLong (-s)) }
  | 0x33 | 0x36 | 0xc5 =>
    match scale_axis (toLong value) lmin lmax 0 255 with
    | .error f => .error f
    | .ok s => .ok { xbox_report with bLeftTrigger := toByte s }
  | 0x34 | 0x37 | 0xc4 =>
    match scale_axis (toLong value) lmin lmax 0 255 with
    | .error f => .error f
    | .ok s => .ok { xbox_report with bRightTrigger := toByte s }
  | 0x39 =>
    if toULong lmin ≤ value ∧ value ≤ toULong lmax then .ok (mapHat xbox_report value)
    else .ok xbox_report
  | _ => .ok xbox_report

/-- The body of the value loop for one capability entry; a usage whose value
cannot be extracted is skipped (`continue`). -/
def mapValue (xbox_report : XUSB_REPORT) (v_cap : ValueCap) : Except Fault XUSB_REPORT :=
  match v_cap.value with
  | none => .ok xbox_report
  | some value => mapUsage xbox_report v_cap.usage value v_cap.LogicalMin v_cap.LogicalMax

/-- The value loop over the capability table. -/
def mapValues : List ValueCap → XUSB_REPORT → Except Fault XUSB_REPORT
  | [], xbox_report => .ok xbox_report
  | v_cap :: rest, xbox_report =>
    match mapValue xbox_report v_cap with
    | .error f => .error f
    | .ok r => mapValues rest r

/-- The function `parse_and_map_report` of `src/main.cpp`, on the decoded
input of the report and the prior content of `xbox_report`. -/
def parse_and_map_report (input : DecodedInput) (xbox_report : XUSB_REPORT) :
    Except Fault XUSB_REPORT :=
  let reset : XUSB_REPORT :=
    { xbox_report with wButtons := 0, bLeftTrigger := 0, bRightTrigger := 0 }
  mapValues input.values (input.usages.foldl mapButton reset)

/-! ## Poll loop -/

/-- What one iteration of the loop of `main` observes: `ReadFile` returns
`FALSE` (`failed`), or it returns `TRUE` with `bytes_read` bytes in the buffer,
for which the HID parser yields `input`. -/
inductive ReadEvent where
  | failed
  | read (bytes_read : Nat) (input : DecodedInput)
  deriving DecidableEq, Repr

/-- The state of the loop of `main`: the output report `xbox_report` and the
reports handed to `vigem_target_x360_update` so far, oldest first. -/
structure LoopState where
  xbox_report : XUSB_REPORT
  pushed : List XUSB_REPORT
  deriving DecidableEq, Repr

/-- One iteration of the `while (true)` loop of `main`: a successful read of at
least one byte maps the report and pushes it; a successful read of zero bytes
does nothing; a failed read only logs and sleeps. -/
def pollStep (s : LoopState) (ev : ReadEvent) : Except Fault LoopState :=
  match ev with
  | .failed => .ok s
  | .read bytes_read input =>
    if bytes_read > 0 then
      match parse_and_map_report input s.xbox_report with
      | .error f => .error f
      | .ok r => .ok { xbox_report := r, pushed := s.pushed ++ [r] }
    else .ok s

/-- The iterations of the loop of `main` over a sequence of read events. -/
def pollRun : LoopState → List ReadEvent → Except Fault LoopState
  | s, [] => .ok s
  | s, ev :: rest =>
    match pollStep s ev with
    | .error f => .error f
    | .ok s2 => pollRun s2 rest

/-! ## Specification-side definitions -/

/-- The button table as the specification states it: the output bit of a
recognised button usage, `0` for every other usage. -/
def buttonBit (u : Nat) : Nat :=
  match u with
  | 1 => XUSB_GAMEPAD_A
  | 2 => XUSB_GAMEPAD_B
  | 4 => XUSB_GAMEPAD_X
  | 5 => XUSB_GAMEPAD_Y
  | 7 => XUSB_GAMEPAD_LEFT_SHOULDER
  | 8 => XUSB_GAMEPAD_RIGHT_SHOULDER
  | 11 => XUSB_GAMEPAD_BACK
  | 12 => XUSB_GAMEPAD_START
  | 14 => XUSB_GAMEPAD_LEFT_THUMB
  | 15 => XUSB_GAMEPAD_RIGHT_THUMB
  | _ => 0

/-- The hat-switch table as the specification states it: position 0 is up,
incrementing clockwise through 7 = up-left; every other value is neutral. -/
def hatBits (h : Nat) : Nat :=
  match h with
  | 0 => XUSB_GAMEPAD_DPAD_UP
  | 1 => XUSB_GAMEPAD_DPAD_UP ||| XUSB_GAMEPAD_DPAD_RIGHT
  | 2 => XUSB_GAMEPAD_DPAD_RIGHT
  | 3 => XUSB_GAMEPAD_DPAD_DOWN ||| XUSB_GAMEPAD_DPAD_RIGHT
  | 4 => XUSB_GAMEPAD_DPAD_DOWN
  | 5 => XUSB_GAMEPAD_DPAD_DOWN ||| XUSB_GAMEPAD_DPAD_LEFT
  | 6 => XUSB_GAMEPAD_DPAD_LEFT
  | 7 => XUSB_GAMEPAD_DPAD_UP ||| XUSB_GAMEPAD_DPAD_LEFT
  | _ => 0

/-- A value for `usage` was extracted from the report: some capability entry
with that usage has a value. -/
def touches (usage : Nat) (values : List ValueCap) : Bool :=
  values.any fun v_cap => v_cap.value.isSome && v_cap.usage == usage

/-- Two runs end alike: both return and the reports are related by `P`, or
both stop with the same fault. -/
def sameOutcome (P : XUSB_REPORT → XUSB_REPORT → Prop)
    (x y : Except Fault XUSB_REPORT) : Prop :=
  match x, y with
  | .ok a, .ok b => P a b
  | .error f, .error g => f = g
  | _, _ => False

/-- Agreement of two reports on the button bitmask, on the triggers and on the
stick axes selected by `lx`, `ly`, `rx`, `ry`. -/
def agreeOn (lx ly rx ry : Prop) (a b : XUSB_REPORT) : Prop :=
  a.wButtons = b.wButtons ∧ a.bLeftTrigger = b.bLeftTrigger
    ∧ a.bRightTrigger = b.bRightTrigger
    ∧ (lx → a.sThumbLX = b.sThumbLX) ∧ (ly → a.sThumbLY = b.sThumbLY)
    ∧ (rx → a.sThumbRX = b.sThumbRX) ∧ (ry → a.sThumbRY = b.sThumbRY)

/-- The button bitmask as the specification states it: the bitwise OR of the
table bits of the asserted usages. -/
def orBits : List Nat → Nat
  | [] => 0
  | u :: rest => buttonBit u ||| orBits rest

/-- The directional bits that one capability entry contributes: those of the
hat table when the entry is the hat usage `0x39` with an extracted value inside
the range the code tests, none otherwise. -/
def hatOf (v_cap : ValueCap) : Nat :=
  match v_cap.value with
  | none => 0
  | some value =>
    if v_cap.usage = 0x39 ∧ toULong v_cap.LogicalMin ≤ value
        ∧ value ≤ toULong v_cap.LogicalMax then hatBits value
    else 0

/-- The bitwise OR of the directional bits of all capability entries. -/
def hatMask : List ValueCap → Nat
  | [] => 0
  | v_cap :: rest => hatOf v_cap ||| hatMask rest

/-! ## Rounding lemmas -/

theorem rne_intCast (n : ℤ) : rne (n : ℚ) = n := by
  simp [rne]

theorem roundDouble_zero : roundDouble 0 = 0 := by
  simp [roundDouble]

theorem two_zpow_pos (e : ℤ) : (0 : ℚ) < (2 : ℚ) ^ e := by positivity

theorem roundDouble_of_scaled_int {q : ℚ} (k : ℤ)
    (hk : q / (2 : ℚ) ^ (Int.log 2 |q| - 52) = (k : ℚ)) : roundDouble q = q := by
  unfold roundDouble
  split_ifs with hq
  · exact hq.symm
  · simp only
    rw [hk, rne_intCast, ← hk]
    exact div_mul_cancel₀ q (two_zpow_pos _).ne'

theorem roundDouble_intCast {n : ℤ} (hn : |n| < 2 ^ 53) : roundDouble (n : ℚ) = (n : ℚ) := by
  by_cases h0 : n = 0
  · subst h0; simpa using roundDouble_zero
  · have habs : |(n : ℚ)| = ((n.natAbs : ℕ) : ℚ) := by
      rw [← Int.cast_abs, Int.abs_eq_natAbs, Int.cast_natCast]
    have hlt : n.natAbs < 2 ^ 53 := by
      have : (n.natAbs : ℤ) < 2 ^ 53 := by rw [← Int.abs_eq_natAbs]; exact hn
      exact_mod_cast this
    have hL : Nat.log 2 n.natAbs < 53 := Nat.log_lt_of_lt_pow (by simpa using h0) hlt
    have hlog : Int.log 2 |(n : ℚ)| = (Nat.log 2 n.natAbs : ℤ) := by
      rw [habs]; exact Int.log_natCast 2 _
    apply roundDouble_of_scaled_int (n * 2 ^ (52 - Nat.log 2 n.natAbs))
    rw [hlog]
    have he : ((Nat.log 2 n.natAbs : ℤ) - 52) = -((52 - Nat.log 2 n.natAbs : ℕ) : ℤ) := by
      omega
    rw [he, zpow_neg, zpow_natCast]
    push_cast
    rw [div_inv_eq_mul]

theorem int_log_mul_two_zpow {q : ℚ} (hq : 0 < q) (j : ℤ) :
    Int.log 2 (q * (2 : ℚ) ^ j) = Int.log 2 q + j := by
  have hpos : 0 < q * (2 : ℚ) ^ j := mul_pos hq (two_zpow_pos j)
  have h0 : (2 : ℚ) ^ (Int.log 2 q) ≤ q := by
    simpa using Int.zpow_log_le_self (R := ℚ) (b := 2) (by norm_num) hq
  have h1 : q < (2 : ℚ) ^ (Int.log 2 q + 1) := by
    simpa using Int.lt_zpow_succ_log_self (R := ℚ) (b := 2) (by norm_num) q
  apply le_antisymm
  · have : Int.log 2 (q * (2 : ℚ) ^ j) < Int.log 2 q + j + 1 := by
      rw [← Int.lt_zpow_iff_log_lt (R := ℚ) (b := 2) (by norm_num) hpos]
      have e : ((2 : ℕ) : ℚ) ^ (Int.log 2 q + j + 1)
          = (2 : ℚ) ^ (Int.log 2 q + 1) * (2 : ℚ) ^ j := by
        rw [← zpow_add₀ (by norm_num : (2 : ℚ) ≠ 0)]
        push_cast
        congr 1
        ring
      rw [e]
      exact mul_lt_mul_of_pos_right h1 (two_zpow_pos j)
    omega
  · rw [← Int.zpow_le_iff_le_log (R := ℚ) (b := 2) (by norm_num) hpos]
    have e : ((2 : ℕ) : ℚ) ^ (Int.log 2 q + j) = (2 : ℚ) ^ (Int.log 2 q) * (2 : ℚ) ^ j := by
      rw [← zpow_add₀ (by norm_num : (2 : ℚ) ≠ 0)]
      push_cast
      rfl
    rw [e]
    exact mul_le_mul_of_nonneg_right h0 (two_zpow_pos j).le

theorem roundDouble_mul_two_zpow (q : ℚ) (j : ℤ) :
    roundDouble (q * (2 : ℚ) ^ j) = roundDouble q * (2 : ℚ) ^ j := by
  by_cases hq : q = 0
  · subst hq; simp [roundDouble_zero]
  · have hq2 : q * (2 : ℚ) ^ j ≠ 0 := mul_ne_zero hq (two_zpow_pos j).ne'
    have habs : |q * (2 : ℚ) ^ j| = |q| * (2 : ℚ) ^ j := by
      rw [abs_mul, abs_of_pos (two_zpow_pos j)]
    unfold roundDouble
    simp only [hq, hq2, if_false]
    rw [habs, int_log_mul_two_zpow (abs_pos.mpr hq) j]
    have e1 : (2 : ℚ) ^ (Int.log 2 |q| + j - 52) = (2 : ℚ) ^ (Int.log 2 |q| - 52) * (2 : ℚ) ^ j := by
      rw [← zpow_add₀ (by norm_num : (2 : ℚ) ≠ 0)]
      congr 1
      ring
    have e2 : q * (2 : ℚ) ^ j / ((2 : ℚ) ^ (Int.log 2 |q| - 52) * (2 : ℚ) ^ j)
        = q / (2 : ℚ) ^ (Int.log 2 |q| - 52) :=
      mul_div_mul_right _ _ (two_zpow_pos j).ne'
    rw [e1, e2]
    ring

theorem roundDouble_dyadic {n : ℤ} (hn : |n| < 2 ^ 53) (j : ℤ) :
    roundDouble ((n : ℚ) * (2 : ℚ) ^ j) = (n : ℚ) * (2 : ℚ) ^ j := by
  rw [roundDouble_mul_two_zpow, roundDouble_intCast hn]

theorem roundDouble_half_int {n : ℤ} (hn : |n| < 2 ^ 53) :
    roundDouble ((n : ℚ) / 2) = (n : ℚ) / 2 := by
  have := roundDouble_dyadic hn (-1)
  have e : (n : ℚ) * (2 : ℚ) ^ (-1 : ℤ) = (n : ℚ) / 2 := by
    rw [zpow_neg_one, div_eq_mul_inv]
  rwa [e] at this

theorem truncQ_half_int (n : ℤ) : truncQ ((n : ℚ) / 2) = Int.tdiv n 2 := by
  have key : ∀ m : ℤ, ⌊(m : ℚ) / 2⌋ = m / 2 := by
    intro m
    have := Rat.floor_intCast_div_natCast m 2
    simpa using this
  unfold truncQ
  split_ifs with h
  · have hn : 0 ≤ n := by
      have : (0 : ℚ) ≤ (n : ℚ) := by linarith
      exact_mod_cast this
    rw [Int.tdiv_eq_ediv hn (by norm_num), key]
  · have hn : n < 0 := by
      have : (n : ℚ) < 0 := by linarith
      exact_mod_cast this
    have e1 : ⌈(n : ℚ) / 2⌉ = -⌊((-n : ℤ) : ℚ) / 2⌋ := by
      rw [← Int.ceil_neg]
      congr 1
      push_cast
      ring
    rw [e1, key]
    have e2 : Int.tdiv n 2 = -(Int.tdiv (-n) 2) := by
      rw [Int.neg_tdiv, neg_neg]
    rw [e2, Int.tdiv_eq_ediv (by omega) (by norm_num)]

/-! ## Lemmas on `scale_axis` -/

theorem toLong_of_isLong {x : Int} (h : isLong x) : toLong x = x := by
  unfold isLong at h
  unfold toLong
  omega

theorem isLong_toLong (x : Int) : isLong (toLong x) := by
  unfold isLong toLong
  omega

theorem truncQ_intCast (n : ℤ) : truncQ (n : ℚ) = n := by
  unfold truncQ
  split_ifs <;> simp

theorem interp_zero {b xr xmin : ℤ} (hmin : |xmin| < 2 ^ 53) :
    interp 0 b xr xmin = (xmin : ℚ) := by
  unfold interp fadd fmul
  simp [roundDouble_zero, roundDouble_intCast hmin]

theorem scale_axis_degenerate_eq (value n xbox_min xbox_max : Int) :
    scale_axis value n n xbox_min xbox_max = .ok (Int.tdiv (toLong (xbox_max + xbox_min)) 2) := by
  unfold scale_axis
  simp [toLong]

theorem scale_axis_deadzone_eq {value hid_min hid_max : Int} (xbox_min xbox_max : Int)
    (hdz : |value - toLong (hid_min + Int.tdiv (toLong (hid_max - hid_min)) 2)|
      < Int.tdiv (toLong (hid_max - hid_min)) 10) :
    scale_axis value hid_min hid_max xbox_min xbox_max
      = .ok (Int.tdiv (toLong (xbox_max + xbox_min)) 2) := by
  unfold scale_axis
  simp only [hdz, if_true]
  split_ifs <;> rfl

theorem scale_axis_interp_eq {value hid_min hid_max : Int} (xbox_min xbox_max : Int)
    (hr : toLong (hid_max - hid_min) ≠ 0)
    (hdz : ¬ |value - toLong (hid_min + Int.tdiv (toLong (hid_max - hid_min)) 2)|
      < Int.tdiv (toLong (hid_max - hid_min)) 10) :
    scale_axis value hid_min hid_max xbox_min xbox_max
      = doubleToLong (interp (toLong (value - hid_min)) (toLong (hid_max - hid_min))
          (toLong (xbox_max - xbox_min)) xbox_min) := by
  unfold scale_axis
  have hq : ((toLong (hid_max - hid_min) : ℤ) : ℚ) ≠ 0 := by exact_mod_cast hr
  simp only [hr, hdz, if_false, fdiv, hq, interp]

theorem scale_axis_deadzone_math {value hid_min hid_max : Int} (xbox_min xbox_max : Int)
    (hmin : isLong hid_min) (hmax : isLong hid_max) (hlt : hid_min < hid_max)
    (hrange : isLong (hid_max - hid_min)) (hsum : isLong (xbox_min + xbox_max))
    (hdz : |value - (hid_min + (hid_max - hid_min) / 2)| < (hid_max - hid_min) / 10) :
    scale_axis value hid_min hid_max xbox_min xbox_max
      = .ok (Int.tdiv (xbox_min + xbox_max) 2) := by
  have e1 : toLong (hid_max - hid_min) = hid_max - hid_min := toLong_of_isLong hrange
  have e2 : Int.tdiv (hid_max - hid_min) 2 = (hid_max - hid_min) / 2 :=
    Int.tdiv_eq_ediv (by omega) (by norm_num)
  have e3 : Int.tdiv (hid_max - hid_min) 10 = (hid_max - hid_min) / 10 :=
    Int.tdiv_eq_ediv (by omega) (by norm_num)
  have e4 : toLong (hid_min + (hid_max - hid_min) / 2) = hid_min + (hid_max - hid_min) / 2 := by
    apply toLong_of_isLong
    unfold isLong at *
    omega
  have e5 : toLong (xbox_max + xbox_min) = xbox_min + xbox_max := by
    rw [add_comm]; exact toLong_of_isLong hsum
  have := @scale_axis_deadzone_eq value hid_min hid_max
    xbox_min xbox_max (by rw [e1, e2, e3, e4]; exact hdz)
  rw [this, e5]

theorem roundDouble_div_two_pow {n : ℤ} (hn : |n| < 2 ^ 53) (k : ℕ) :
    roundDouble ((n : ℚ) / (2 : ℚ) ^ k) = (n : ℚ) / (2 : ℚ) ^ k := by
  have := roundDouble_dyadic hn (-(k : ℤ))
  have e : (n : ℚ) * (2 : ℚ) ^ (-(k : ℤ)) = (n : ℚ) / (2 : ℚ) ^ k := by
    rw [zpow_neg, zpow_natCast, div_eq_mul_inv]
  rwa [e] at this

theorem interp_half {a b xr xmin : ℤ} (hb : b ≠ 0) (hab : b = 2 * a)
    (hxr : |xr| < 2 ^ 53) (hsum : |xmin + (xmin + xr)| < 2 ^ 53) :
    interp a b xr xmin = ((xmin + (xmin + xr) : ℤ) : ℚ) / 2 := by
  unfold interp fadd fmul
  have ha : (a : ℚ) ≠ 0 := by
    have : a ≠ 0 := by omega
    exact_mod_cast this
  have e1 : (a : ℚ) / (b : ℚ) = ((1 : ℤ) : ℚ) / 2 := by
    rw [hab]; push_cast; field_simp; ring
  rw [e1, roundDouble_half_int (by norm_num)]
  have e2 : ((1 : ℤ) : ℚ) / 2 * (xr : ℚ) = (xr : ℚ) / 2 := by push_cast; ring
  rw [e2, roundDouble_half_int hxr]
  have e3 : (xr : ℚ) / 2 + (xmin : ℚ) = ((xmin + (xmin + xr) : ℤ) : ℚ) / 2 := by
    push_cast; ring
  rw [e3, roundDouble_half_int hsum]

/-! ## Claims on the axis scaler -/

/-- C3. Degenerate range: for every value `v`, every `n` and every target range,
`scale_axis v n n tmin tmax` returns (no division by zero or other fault is
reached) the `long` sum `tmin + tmax` divided by 2 with truncation toward zero;
when the sum is a `long` this is `(tmin + tmax) / 2`. -/
theorem scale_axis_degenerate_range (v n tmin tmax : Int) :
    scale_axis v n n tmin tmax = .ok (Int.tdiv (toLong (tmin + tmax)) 2)
      ∧ (isLong (tmin + tmax) →
          scale_axis v n n tmin tmax = .ok (Int.tdiv (tmin + tmax) 2)) := by
  have h := scale_axis_degenerate_eq v n tmin tmax
  rw [add_comm tmax tmin] at h
  refine ⟨h, fun hs => ?_⟩
  rw [h, toLong_of_isLong hs]

theorem scale_axis_degenerate_range_witness :
    scale_axis 5 3 3 (-32768) 32767 = .ok (Int.tdiv (-32768 + 32767) 2) :=
  (scale_axis_degenerate_range 5 3 (-32768) 32767).2 (by decide)

/-- C4, as stated, fails: for the logical range `[0, 1]` the center is `0`, the
dead zone is empty (`1 / 10 = 0`) and `scale_axis` returns the target minimum
`-32768`, not the midpoint `(-32768 + 32767) / 2 = 0`. -/
theorem scale_axis_center_counterexample :
    (0 : Int) < 1
      ∧ scale_axis (0 + (1 - 0) / 2) 0 1 (-32768) 32767 = .ok (-32768)
      ∧ (-32768 : Int) ≠ Int.tdiv (-32768 + 32767) 2 := by
  refine ⟨by decide, ?_, by decide⟩
  have h := @scale_axis_interp_eq (0 + (1 - 0) / 2) 0 1
    (-32768) 32767 (by decide) (by decide)
  have e1 : toLong (0 + (1 - 0) / 2 - 0) = 0 := by decide
  rw [h, e1, interp_zero (by norm_num)]
  unfold doubleToLong
  rw [truncQ_intCast]
  rfl

/-- C4, amended. Center maps to midpoint: for every logical range `min < max`
whose width `max - min` is at least 10 (so that the dead zone is not empty) or
even, and every target range, `scale_axis` at
`center = min + (max - min) / 2` returns `(tmin + tmax) / 2`. -/
theorem scale_axis_center (lo hi tmin tmax : Int)
    (hlo : isLong lo) (hhi : isLong hi) (hlt : lo < hi) (hrange : isLong (hi - lo))
    (htrange : isLong (tmax - tmin)) (htsum : isLong (tmin + tmax))
    (hwidth : 10 ≤ hi - lo ∨ (hi - lo) % 2 = 0) :
    scale_axis (lo + (hi - lo) / 2) lo hi tmin tmax = .ok (Int.tdiv (tmin + tmax) 2) := by
  by_cases h10 : 10 ≤ hi - lo
  · apply scale_axis_deadzone_math tmin tmax hlo hhi hlt hrange htsum
    have : lo + (hi - lo) / 2 - (lo + (hi - lo) / 2) = 0 := by ring
    rw [this, abs_zero]
    omega
  · have heven : (hi - lo) % 2 = 0 := by
      rcases hwidth with h | h
      · exact absurd h h10
      · exact h
    have e1 : toLong (hi - lo) = hi - lo := toLong_of_isLong hrange
    have e2 : Int.tdiv (hi - lo) 2 = (hi - lo) / 2 :=
      Int.tdiv_eq_ediv (by omega) (by norm_num)
    have e3 : Int.tdiv (hi - lo) 10 = (hi - lo) / 10 :=
      Int.tdiv_eq_ediv (by omega) (by norm_num)
    have e4 : toLong (lo + (hi - lo) / 2) = lo + (hi - lo) / 2 := by
      apply toLong_of_isLong
      unfold isLong at *
      omega
    have e5 : toLong (lo + (hi - lo) / 2 - lo) = (hi - lo) / 2 := by
      have : lo + (hi - lo) / 2 - lo = (hi - lo) / 2 := by ring
      rw [this]
      apply toLong_of_isLong
      unfold isLong at *
      omega
    have e6 : toLong (tmax - tmin) = tmax - tmin := toLong_of_isLong htrange
    have hs := @scale_axis_interp_eq (lo + (hi - lo) / 2) lo
      hi tmin tmax (by rw [e1]; omega)
      (by
        rw [e1, e2, e3, e4]
        have : lo + (hi - lo) / 2 - (lo + (hi - lo) / 2) = 0 := by ring
        rw [this, abs_zero]
        omega)
    rw [e1, e5, e6] at hs
    have hsum : tmin + (tmin + (tmax - tmin)) = tmin + tmax := by ring
    have hi2 := @interp_half ((hi - lo) / 2) (hi - lo) (tmax - tmin)
      tmin (by omega) (by omega)
      (by unfold isLong at htrange; rw [abs_lt]; constructor <;> omega)
      (by unfold isLong at htsum; rw [hsum, abs_lt]; constructor <;> omega)
    rw [hsum] at hi2
    rw [hs, hi2]
    unfold doubleToLong
    rw [truncQ_half_int, if_pos]
    unfold isLong at htsum
    have b1 : Int.tdiv (tmin + tmax) 2 = -(Int.tdiv (-(tmin + tmax)) 2) := by
      rw [Int.neg_tdiv, neg_neg]
    rcases le_or_lt 0 (tmin + tmax) with hnn | hneg
    · rw [Int.tdiv_eq_ediv hnn (by norm_num)]
      constructor <;> omega
    · rw [b1, Int.tdiv_eq_ediv (by omega) (by norm_num)]
      constructor <;> omega

theorem scale_axis_center_witness :
    scale_axis (0 + (255 - 0) / 2) 0 255 (-32768) 32767
      = .ok (Int.tdiv (-32768 + 32767) 2) :=
  scale_axis_center 0 255 (-32768) 32767 (by decide) (by decide) (by decide) (by decide)
    (by decide) (by decide) (by decide)

/-- C10, as stated, fails: for the logical range `[0, 16]` the center is `8` and
10% of the range is `1.6`; the value `9` is at distance `1 < 1.6` from the
center, but the code compares with `16 / 10 = 1`, does not center the value and
returns `4095`, not the midpoint `(-32768 + 32767) / 2 = 0`. -/
theorem scale_axis_dead_zone_counterexample :
    |((9 - (0 + (16 - 0) / 2) : Int) : ℚ)| < (10 : ℚ) / 100 * ((16 - 0 : Int) : ℚ)
      ∧ scale_axis 9 0 16 (-32768) 32767 = .ok 4095
      ∧ (4095 : Int) ≠ Int.tdiv (-32768 + 32767) 2 := by
  refine ⟨by norm_num, ?_, by decide⟩
  have h := @scale_axis_interp_eq 9 0 16
    (-32768) 32767 (by decide) (by decide)
  have e1 : toLong (9 - 0) = 9 := by decide
  have e2 : toLong (16 - 0) = 16 := by decide
  have e3 : toLong (32767 - -32768) = 65535 := by decide
  rw [h, e1, e2, e3]
  have i1 : interp 9 16 65535 (-32768) = ((65527 : ℤ) : ℚ) / (2 : ℚ) ^ 4 := by
    unfold interp fadd fmul
    have a1 : ((9 : ℤ) : ℚ) / ((16 : ℤ) : ℚ) = ((9 : ℤ) : ℚ) / (2 : ℚ) ^ 4 := by norm_num
    rw [a1, roundDouble_div_two_pow (by norm_num)]
    have a2 : ((9 : ℤ) : ℚ) / (2 : ℚ) ^ 4 * ((65535 : ℤ) : ℚ)
        = ((589815 : ℤ) : ℚ) / (2 : ℚ) ^ 4 := by norm_num
    rw [a2, roundDouble_div_two_pow (by norm_num)]
    have a3 : ((589815 : ℤ) : ℚ) / (2 : ℚ) ^ 4 + ((-32768 : ℤ) : ℚ)
        = ((65527 : ℤ) : ℚ) / (2 : ℚ) ^ 4 := by norm_num
    rw [a3, roundDouble_div_two_pow (by norm_num)]
  have t1 : truncQ (((65527 : ℤ) : ℚ) / (2 : ℚ) ^ 4) = 4095 := by
    unfold truncQ
    rw [if_pos (by norm_num), Int.floor_eq_iff]
    constructor <;> norm_num
  rw [i1]
  unfold doubleToLong
  rw [t1]
  rfl

/-- C10, amended. Dead zone: for every logical range `lo < hi`, with
`center = lo + (hi - lo) / 2` and dead-zone half-width `(hi - lo) / 10` (integer
division, i.e. 10% of the range rounded down), every value whose absolute
distance from the center is less than the half-width makes `scale_axis` return
the target midpoint `(tmin + tmax) / 2`. -/
theorem scale_axis_dead_zone (v lo hi tmin tmax : Int)
    (hlo : isLong lo) (hhi : isLong hi) (hlt : lo < hi) (hrange : isLong (hi - lo))
    (htsum : isLong (tmin + tmax))
    (hdz : |v - (lo + (hi - lo) / 2)| < (hi - lo) / 10) :
    scale_axis v lo hi tmin tmax = .ok (Int.tdiv (tmin + tmax) 2) :=
  scale_axis_deadzone_math tmin tmax hlo hhi hlt hrange htsum hdz

theorem scale_axis_dead_zone_witness :
    scale_axis 130 0 255 (-32768) 32767 = .ok (Int.tdiv (-32768 + 32767) 2) :=
  scale_axis_dead_zone 130 0 255 (-32768) 32767 (by decide) (by decide) (by decide)
    (by decide) (by decide) (by decide)

/-! ## Lemmas on the control mapper -/

theorem lor_land_distrib (a b c : Nat) : (a ||| b) &&& c = (a &&& c) ||| (b &&& c) := by
  apply Nat.eq_of_testBit_eq
  intro i
  simp only [Nat.testBit_and, Nat.testBit_or, Bool.and_or_distrib_right]

theorem mapButton_eq (r : XUSB_REPORT) (u : Nat) :
    mapButton r u = { r with wButtons := r.wButtons ||| buttonBit u } := by
  unfold mapButton buttonBit
  split <;> first | rfl | (cases r; simp)

theorem mapHat_eq (r : XUSB_REPORT) (h : Nat) :
    mapHat r h = { r with wButtons := r.wButtons ||| hatBits h } := by
  unfold mapHat hatBits
  split <;> first | rfl | (cases r; simp)

theorem buttonBit_dpad (u : Nat) : buttonBit u &&& dpadMask = 0 := by
  unfold buttonBit
  split <;> rfl

theorem hatBits_dpad (h : Nat) : hatBits h &&& dpadMask = hatBits h := by
  unfold hatBits
  split <;> rfl

theorem foldl_mapButton_eq (us : List Nat) (r : XUSB_REPORT) :
    us.foldl mapButton r
      = { r with wButtons := us.foldl (fun w u => w ||| buttonBit u) r.wButtons } := by
  induction us generalizing r with
  | nil => rfl
  | cons u us ih =>
    rw [List.foldl_cons, ih, mapButton_eq]
    rfl

theorem sameOutcome_of_eq {P : XUSB_REPORT → XUSB_REPORT → Prop}
    {x y : Except Fault XUSB_REPORT} (hP : ∀ a, P a a) (h : x = y) : sameOutcome P x y := by
  subst h
  cases x with
  | error f => rfl
  | ok a => exact hP a

theorem mapUsage_agree (usage value : Nat) (lmin lmax : Int) {lx ly rx ry : Prop}
    {a b : XUSB_REPORT} (h : agreeOn lx ly rx ry a b) :
    sameOutcome (agreeOn (lx ∨ usage = 0x30) (ly ∨ usage = 0x31) (rx ∨ usage = 0x32)
        (ry ∨ usage = 0x35))
      (mapUsage a usage value lmin lmax) (mapUsage b usage value lmin lmax) := by
  obtain ⟨h1, h2, h3, h4, h5, h6, h7⟩ := h
  unfold mapUsage
  split
  case h_11 =>
    split_ifs
    · rw [mapHat_eq, mapHat_eq]
      simp only [sameOutcome, agreeOn, h1]
      refine ⟨?_, ?_, ?_, ?_, ?_, ?_, ?_⟩ <;> simp_all
    · simp only [sameOutcome, agreeOn]
      refine ⟨?_, ?_, ?_, ?_, ?_, ?_, ?_⟩ <;> simp_all
  case h_12 =>
    simp only [sameOutcome, agreeOn]
    refine ⟨?_, ?_, ?_, ?_, ?_, ?_, ?_⟩ <;> simp_all
  all_goals
    generalize scale_axis _ _ _ _ _ = res
    cases res with
    | error f => exact rfl
    | ok s =>
      simp only [sameOutcome, agreeOn]
      refine ⟨?_, ?_, ?_, ?_, ?_, ?_, ?_⟩ <;> simp_all

theorem sameOutcome_mono {P Q : XUSB_REPORT → XUSB_REPORT → Prop}
    {x y : Except Fault XUSB_REPORT} (hPQ : ∀ a b, P a b → Q a b)
    (h : sameOutcome P x y) : sameOutcome Q x y := by
  cases x <;> cases y <;> simp_all [sameOutcome]

theorem agreeOn_mono {lx ly rx ry lx2 ly2 rx2 ry2 : Prop} {a b : XUSB_REPORT}
    (h1 : lx2 → lx) (h2 : ly2 → ly) (h3 : rx2 → rx) (h4 : ry2 → ry)
    (h : agreeOn lx ly rx ry a b) : agreeOn lx2 ly2 rx2 ry2 a b := by
  obtain ⟨a1, a2, a3, a4, a5, a6, a7⟩ := h
  exact ⟨a1, a2, a3, fun k => a4 (h1 k), fun k => a5 (h2 k), fun k => a6 (h3 k),
    fun k => a7 (h4 k)⟩

theorem touches_cons (u : Nat) (c : ValueCap) (vs : List ValueCap) :
    touches u (c :: vs) = true
      ↔ (c.value.isSome = true ∧ c.usage = u) ∨ touches u vs = true := by
  simp [touches]

theorem mapValue_agree (c : ValueCap) {lx ly rx ry : Prop}
    {a b : XUSB_REPORT} (h : agreeOn lx ly rx ry a b) :
    sameOutcome (agreeOn (lx ∨ touches 0x30 [c] = true) (ly ∨ touches 0x31 [c] = true)
        (rx ∨ touches 0x32 [c] = true) (ry ∨ touches 0x35 [c] = true))
      (mapValue a c) (mapValue b c) := by
  unfold mapValue
  cases hv : c.value with
  | none =>
    simp only [sameOutcome]
    exact agreeOn_mono (by simp [touches, hv]) (by simp [touches, hv]) (by simp [touches, hv])
      (by simp [touches, hv]) h
  | some value =>
    simp only
    refine sameOutcome_mono ?_ (mapUsage_agree c.usage value c.LogicalMin c.LogicalMax h)
    intro x y hxy
    exact agreeOn_mono (by simp [touches, hv]) (by simp [touches, hv]) (by simp [touches, hv])
      (by simp [touches, hv]) hxy

theorem mapValues_agree (vs : List ValueCap) {lx ly rx ry : Prop}
    {a b : XUSB_REPORT} (h : agreeOn lx ly rx ry a b) :
    sameOutcome (agreeOn (lx ∨ touches 0x30 vs = true) (ly ∨ touches 0x31 vs = true)
        (rx ∨ touches 0x32 vs = true) (ry ∨ touches 0x35 vs = true))
      (mapValues vs a) (mapValues vs b) := by
  induction vs generalizing a b lx ly rx ry with
  | nil =>
    simp only [mapValues, sameOutcome]
    exact agreeOn_mono (by simp [touches]) (by simp [touches]) (by simp [touches])
      (by simp [touches]) h
  | cons c vs ih =>
    have hstep := mapValue_agree c h
    unfold mapValues
    cases ha : mapValue a c with
    | error f =>
      cases hb : mapValue b c with
      | error g => rw [ha, hb] at hstep; exact hstep
      | ok b2 => rw [ha, hb] at hstep; exact hstep.elim
    | ok a2 =>
      cases hb : mapValue b c with
      | error g => rw [ha, hb] at hstep; exact hstep.elim
      | ok b2 =>
        rw [ha, hb] at hstep
        simp only
        refine sameOutcome_mono ?_ (ih hstep)
        intro x y hxy
        refine agreeOn_mono ?_ ?_ ?_ ?_ hxy <;>
        · intro k
          rcases k with k | k
          · exact Or.inl (Or.inl k)
          · rcases (touches_cons _ c vs).mp k with k2 | k2
            · exact Or.inl (Or.inr (by simp [touches, k2.1, k2.2]))
            · exact Or.inr k2

theorem mapUsage_keep {a a2 : XUSB_REPORT} {usage value : Nat} {lmin lmax : Int}
    (h : mapUsage a usage value lmin lmax = .ok a2) :
    (usage ≠ 0x30 → a2.sThumbLX = a.sThumbLX) ∧ (usage ≠ 0x31 → a2.sThumbLY = a.sThumbLY)
      ∧ (usage ≠ 0x32 → a2.sThumbRX = a.sThumbRX)
      ∧ (usage ≠ 0x35 → a2.sThumbRY = a.sThumbRY) := by
  unfold mapUsage at h
  split at h
  case h_11 =>
    split_ifs at h
    · rw [mapHat_eq] at h
      cases h
      simp
    · cases h
      simp
  case h_12 =>
    cases h
    simp
  all_goals
    generalize scale_axis _ _ _ _ _ = res at h
    cases res with
    | error f => cases h
    | ok s =>
      cases h
      simp

theorem mapValues_keep (vs : List ValueCap) {a a2 : XUSB_REPORT}
    (h : mapValues vs a = .ok a2) :
    (touches 0x30 vs = false → a2.sThumbLX = a.sThumbLX)
      ∧ (touches 0x31 vs = false → a2.sThumbLY = a.sThumbLY)
      ∧ (touches 0x32 vs = false → a2.sThumbRX = a.sThumbRX)
      ∧ (touches 0x35 vs = false → a2.sThumbRY = a.sThumbRY) := by
  induction vs generalizing a with
  | nil =>
    simp only [mapValues] at h
    cases h
    simp
  | cons c vs ih =>
    unfold mapValues at h
    cases hc : mapValue a c with
    | error f => rw [hc] at h; cases h
    | ok a1 =>
      rw [hc] at h
      simp only at h
      have h2 := ih h
      have h1 : (touches 0x30 [c] = false → a1.sThumbLX = a.sThumbLX)
          ∧ (touches 0x31 [c] = false → a1.sThumbLY = a.sThumbLY)
          ∧ (touches 0x32 [c] = false → a1.sThumbRX = a.sThumbRX)
          ∧ (touches 0x35 [c] = false → a1.sThumbRY = a.sThumbRY) := by
        unfold mapValue at hc
        cases hv : c.value with
        | none =>
          rw [hv] at hc
          cases hc
          simp
        | some value =>
          rw [hv] at hc
          have := mapUsage_keep hc
          simp only [touches, List.any_cons, List.any_nil, hv, Option.isSome_some, Bool.true_and,
            Bool.or_false, beq_eq_false_iff_ne, ne_eq]
          exact this
      have split : ∀ u, touches u (c :: vs) = false →
          touches u [c] = false ∧ touches u vs = false := by
        intro u hu
        simp only [touches, List.any_cons, List.any_nil, Bool.or_false, Bool.or_eq_false_iff]
          at hu ⊢
        exact hu
      refine ⟨fun k => ?_, fun k => ?_, fun k => ?_, fun k => ?_⟩
      · rw [h2.1 (split _ k).2, h1.1 (split _ k).1]
      · rw [h2.2.1 (split _ k).2, h1.2.1 (split _ k).1]
      · rw [h2.2.2.1 (split _ k).2, h1.2.2.1 (split _ k).1]
      · rw [h2.2.2.2 (split _ k).2, h1.2.2.2 (split _ k).1]

/-! ## Claims on the control mapper -/

/-- C1, as stated, fails: when the value of usage `0x30` cannot be extracted,
`sThumbLX` is neither reset nor overwritten, so two prior reports that differ
in `sThumbLX` end in different final reports. -/
theorem parse_and_map_report_prior_counterexample :
    parse_and_map_report ⟨[], [⟨0x30, none, 0, 255⟩]⟩ ⟨0, 0, 0, 0, 0, 0, 0⟩
        = .ok ⟨0, 0, 0, 0, 0, 0, 0⟩
      ∧ parse_and_map_report ⟨[], [⟨0x30, none, 0, 255⟩]⟩ ⟨0, 0, 0, 32767, 0, 0, 0⟩
        = .ok ⟨0, 0, 0, 32767, 0, 0, 0⟩
      ∧ (⟨0, 0, 0, 0, 0, 0, 0⟩ : XUSB_REPORT) ≠ ⟨0, 0, 0, 32767, 0, 0, 0⟩ := by
  refine ⟨rfl, rfl, by decide⟩

/-- C1, amended. For every decoded input and every two prior contents of the
output report, `parse_and_map_report` ends alike on both (same fault, or two
reports) and the two final reports have the same `wButtons`, `bLeftTrigger`
and `bRightTrigger`; a stick axis for whose usage (`0x30`, `0x31`, `0x32`,
`0x35`) a value was extracted is overwritten and the same in both; a stick axis
without an extracted value is not reset and keeps its prior content. -/
theorem parse_and_map_report_prior_independence (input : DecodedInput)
    (r1 r2 : XUSB_REPORT) :
    sameOutcome (fun a b =>
        a.wButtons = b.wButtons ∧ a.bLeftTrigger = b.bLeftTrigger
          ∧ a.bRightTrigger = b.bRightTrigger
          ∧ (if touches 0x30 input.values then a.sThumbLX = b.sThumbLX
              else a.sThumbLX = r1.sThumbLX ∧ b.sThumbLX = r2.sThumbLX)
          ∧ (if touches 0x31 input.values then a.sThumbLY = b.sThumbLY
              else a.sThumbLY = r1.sThumbLY ∧ b.sThumbLY = r2.sThumbLY)
          ∧ (if touches 0x32 input.values then a.sThumbRX = b.sThumbRX
              else a.sThumbRX = r1.sThumbRX ∧ b.sThumbRX = r2.sThumbRX)
          ∧ (if touches 0x35 input.values then a.sThumbRY = b.sThumbRY
              else a.sThumbRY = r1.sThumbRY ∧ b.sThumbRY = r2.sThumbRY))
      (parse_and_map_report input r1) (parse_and_map_report input r2) := by
  unfold parse_and_map_report
  simp only [foldl_mapButton_eq]
  have h0 : agreeOn False False False False
      { r1 with wButtons := input.usages.foldl (fun w u => w ||| buttonBit u) 0,
                bLeftTrigger := 0, bRightTrigger := 0 }
      { r2 with wButtons := input.usages.foldl (fun w u => w ||| buttonBit u) 0,
                bLeftTrigger := 0, bRightTrigger := 0 } :=
    ⟨rfl, rfl, rfl, False.elim, False.elim, False.elim, False.elim⟩
  have hag := mapValues_agree input.values h0
  cases ha : mapValues input.values
      { r1 with wButtons := input.usages.foldl (fun w u => w ||| buttonBit u) 0,
                bLeftTrigger := 0, bRightTrigger := 0 } with
  | error f =>
    cases hb : mapValues input.values
        { r2 with wButtons := input.usages.foldl (fun w u => w ||| buttonBit u) 0,
                  bLeftTrigger := 0, bRightTrigger := 0 } with
    | error g => rw [ha, hb] at hag; exact hag
    | ok b => rw [ha, hb] at hag; exact hag.elim
  | ok a =>
    cases hb : mapValues input.values
        { r2 with wButtons := input.usages.foldl (fun w u => w ||| buttonBit u) 0,
                  bLeftTrigger := 0, bRightTrigger := 0 } with
    | error g => rw [ha, hb] at hag; exact hag.elim
    | ok b =>
      rw [ha, hb] at hag
      have ka := mapValues_keep input.values ha
      have kb := mapValues_keep input.values hb
      obtain ⟨g1, g2, g3, g4, g5, g6, g7⟩ := hag
      simp only [sameOutcome]
      refine ⟨g1, g2, g3, ?_, ?_, ?_, ?_⟩
      · split_ifs with ht
        · exact g4 (Or.inr ht)
        · exact ⟨ka.1 (by simpa using ht), kb.1 (by simpa using ht)⟩
      · split_ifs with ht
        · exact g5 (Or.inr ht)
        · exact ⟨ka.2.1 (by simpa using ht), kb.2.1 (by simpa using ht)⟩
      · split_ifs with ht
        · exact g6 (Or.inr ht)
        · exact ⟨ka.2.2.1 (by simpa using ht), kb.2.2.1 (by simpa using ht)⟩
      · split_ifs with ht
        · exact g7 (Or.inr ht)
        · exact ⟨ka.2.2.2 (by simpa using ht), kb.2.2.2 (by simpa using ht)⟩

/-- C2. Neutral reset: for every prior output report, when no button usage is
asserted and no value usage is extracted, `parse_and_map_report` returns a
report with `wButtons = 0`, `bLeftTrigger = 0` and `bRightTrigger = 0`. -/
theorem parse_and_map_report_neutral_reset (values : List ValueCap) (prior : XUSB_REPORT)
    (hnone : ∀ v_cap ∈ values, v_cap.value = none) :
    ∃ r, parse_and_map_report ⟨[], values⟩ prior = .ok r
      ∧ r.wButtons = 0 ∧ r.bLeftTrigger = 0 ∧ r.bRightTrigger = 0 := by
  have key : ∀ (vs : List ValueCap) (r : XUSB_REPORT),
      (∀ v_cap ∈ vs, v_cap.value = none) → mapValues vs r = .ok r := by
    intro vs
    induction vs with
    | nil => intro r _; rfl
    | cons c vs ih =>
      intro r hall
      have hc : c.value = none := hall c (List.mem_cons_self c vs)
      unfold mapValues mapValue
      rw [hc]
      exact ih r (fun v hv => hall v (List.mem_cons_of_mem c hv))
  refine ⟨{ prior with wButtons := 0, bLeftTrigger := 0, bRightTrigger := 0 }, ?_, rfl, rfl, rfl⟩
  unfold parse_and_map_report
  exact key values _ hnone

theorem parse_and_map_report_neutral_reset_witness :
    ∃ r, parse_and_map_report ⟨[], [⟨0x33, none, 0, 255⟩]⟩ ⟨0x1000, 255, 7, 1, 2, 3, 4⟩ = .ok r
      ∧ r.wButtons = 0 ∧ r.bLeftTrigger = 0 ∧ r.bRightTrigger = 0 :=
  parse_and_map_report_neutral_reset [⟨0x33, none, 0, 255⟩] ⟨0x1000, 255, 7, 1, 2, 3, 4⟩
    (by decide)

theorem tdiv_ten_nonpos {r : Int} (h : r < 0) : Int.tdiv r 10 ≤ 0 := by
  have e : Int.tdiv r 10 = -(Int.tdiv (-r) 10) := by rw [Int.neg_tdiv, neg_neg]
  rw [e, Int.tdiv_eq_ediv (by omega) (by norm_num)]
  omega

theorem toLong_range_ne_zero {lo hi : Int} (hlo : isLong lo) (hhi : isLong hi)
    (hlt : lo < hi) : toLong (hi - lo) ≠ 0 := by
  unfold isLong at hlo hhi
  unfold toLong
  omega

theorem not_deadzone_at_min {lo hi : Int} (hlo : isLong lo) (hhi : isLong hi)
    (hlt : lo < hi) :
    ¬ |lo - toLong (lo + Int.tdiv (toLong (hi - lo)) 2)| < Int.tdiv (toLong (hi - lo)) 10 := by
  rcases lt_or_le (toLong (hi - lo)) 0 with hneg | hpos
  · have := tdiv_ten_nonpos hneg
    have := abs_nonneg (lo - toLong (lo + Int.tdiv (toLong (hi - lo)) 2))
    omega
  · have hR : toLong (hi - lo) = hi - lo := by
      unfold isLong at hlo hhi
      unfold toLong at hpos ⊢
      omega
    rw [hR, Int.tdiv_eq_ediv (by omega) (by norm_num), Int.tdiv_eq_ediv (by omega) (by norm_num)]
    have hc : toLong (lo + (hi - lo) / 2) = lo + (hi - lo) / 2 := by
      apply toLong_of_isLong
      unfold isLong at *
      omega
    rw [hc, abs_of_nonpos (by omega)]
    omega

theorem scale_axis_at_min {lo hi tmin tmax : Int} (hlo : isLong lo) (hhi : isLong hi)
    (hlt : lo < hi) (htmin : isLong tmin) :
    scale_axis lo lo hi tmin tmax = .ok tmin := by
  have hs := @scale_axis_interp_eq lo lo hi tmin tmax
    (toLong_range_ne_zero hlo hhi hlt) (not_deadzone_at_min hlo hhi hlt)
  have e : toLong (lo - lo) = 0 := by rw [sub_self]; rfl
  rw [hs, e, interp_zero (by unfold isLong at htmin; rw [abs_lt]; constructor <;> omega)]
  unfold doubleToLong
  rw [truncQ_intCast]
  exact if_pos htmin

theorem parse_single_value (usages : List Nat) (prior : XUSB_REPORT) (usage value : Nat)
    (lmin lmax : Int) :
    parse_and_map_report ⟨usages, [⟨usage, some value, lmin, lmax⟩]⟩ prior
      = mapUsage { prior with
            wButtons := usages.foldl (fun w u => w ||| buttonBit u) 0,
            bLeftTrigger := 0, bRightTrigger := 0 } usage value lmin lmax := by
  unfold parse_and_map_report
  simp only [foldl_mapButton_eq, mapValues, mapValue]
  cases mapUsage _ usage value lmin lmax <;> rfl

theorem mapUsage_ly_ok {r : XUSB_REPORT} {value : Nat} {lmin lmax s : Int}
    (hs : scale_axis (toLong (value : Int)) lmin lmax (-32768) 32767 = .ok s) :
    mapUsage r 0x31 value lmin lmax = .ok { r with sThumbLY := toShort (toLong (-s)) } := by
  unfold mapUsage
  simp only [hs]

theorem mapUsage_ry_ok {r : XUSB_REPORT} {value : Nat} {lmin lmax s : Int}
    (hs : scale_axis (toLong (value : Int)) lmin lmax (-32768) 32767 = .ok s) :
    mapUsage r 0x35 value lmin lmax = .ok { r with sThumbRY := toShort (toLong (-s)) } := by
  unfold mapUsage
  simp only [hs]

/-- C6 fails on the code: for the logical range `[0, 255]` the raw value
`logical_min = 0` scales to `-32768`; its arithmetic negation is `32768`, but
the `SHORT` stored in `sThumbLY` (usage `0x31`) and in `sThumbRY` (usage
`0x35`) is `-32768`, which is neither the negation nor positive. -/
theorem parse_and_map_report_y_inversion_at_min :
    scale_axis (toLong 0) 0 255 (-32768) 32767 = .ok (-32768)
      ∧ parse_and_map_report ⟨[], [⟨0x31, some 0, 0, 255⟩]⟩ ⟨0, 0, 0, 0, 0, 0, 0⟩
          = .ok ⟨0, 0, 0, 0, -32768, 0, 0⟩
      ∧ parse_and_map_report ⟨[], [⟨0x35, some 0, 0, 255⟩]⟩ ⟨0, 0, 0, 0, 0, 0, 0⟩
          = .ok ⟨0, 0, 0, 0, 0, 0, -32768⟩
      ∧ (-32768 : Int) ≠ -(-32768) ∧ ¬ (0 : Int) < -32768 := by
  have hs : scale_axis (toLong ((0 : Nat) : Int)) 0 255 (-32768) 32767 = .ok (-32768) :=
    @scale_axis_at_min 0 255 (-32768) 32767 (by decide) (by decide) (by decide) (by decide)
  refine ⟨hs, ?_, ?_, by decide, by decide⟩
  · rw [parse_single_value]
    rw [mapUsage_ly_ok hs]
    rfl
  · rw [parse_single_value]
    rw [mapUsage_ry_ok hs]
    rfl

/-- C11. Idempotence of decode-and-map: for every decoded input `d` and every
prior output report `r`, applying `parse_and_map_report` with `d` to the result
of applying it with `d` to `r` yields the same outcome as applying it once
(the same report, field for field, or the same fault). -/
theorem parse_and_map_report_idempotent (d : DecodedInput) (r : XUSB_REPORT) :
    (parse_and_map_report d r).bind (parse_and_map_report d) = parse_and_map_report d r := by
  cases h1 : parse_and_map_report d r with
  | error f => rfl
  | ok r1 =>
    show parse_and_map_report d r1 = .ok r1
    unfold parse_and_map_report at h1 ⊢
    simp only [foldl_mapButton_eq] at h1 ⊢
    have h0 : agreeOn False False False False
        { r with wButtons := d.usages.foldl (fun w u => w ||| buttonBit u) 0,
                 bLeftTrigger := 0, bRightTrigger := 0 }
        { r1 with wButtons := d.usages.foldl (fun w u => w ||| buttonBit u) 0,
                  bLeftTrigger := 0, bRightTrigger := 0 } :=
      ⟨rfl, rfl, rfl, False.elim, False.elim, False.elim, False.elim⟩
    have hag := mapValues_agree d.values h0
    rw [h1] at hag
    have k1 := mapValues_keep d.values h1
    cases h2 : mapValues d.values
        { r1 with wButtons := d.usages.foldl (fun w u => w ||| buttonBit u) 0,
                  bLeftTrigger := 0, bRightTrigger := 0 } with
    | error g => rw [h2] at hag; exact hag.elim
    | ok r2 =>
      rw [h2] at hag
      have k2 := mapValues_keep d.values h2
      obtain ⟨g1, g2, g3, g4, g5, g6, g7⟩ := hag
      have e4 : r2.sThumbLX = r1.sThumbLX := by
        cases ht : touches 0x30 d.values with
        | true => exact (g4 (Or.inr ht)).symm
        | false => exact k2.1 ht
      have e5 : r2.sThumbLY = r1.sThumbLY := by
        cases ht : touches 0x31 d.values with
        | true => exact (g5 (Or.inr ht)).symm
        | false => exact k2.2.1 ht
      have e6 : r2.sThumbRX = r1.sThumbRX := by
        cases ht : touches 0x32 d.values with
        | true => exact (g6 (Or.inr ht)).symm
        | false => exact k2.2.2.1 ht
      have e7 : r2.sThumbRY = r1.sThumbRY := by
        cases ht : touches 0x35 d.values with
        | true => exact (g7 (Or.inr ht)).symm
        | false => exact k2.2.2.2 ht
      congr 1
      cases r1
      cases r2
      simp only [XUSB_REPORT.mk.injEq]
      simp only at g1 g2 g3 e4 e5 e6 e7
      exact ⟨g1.symm, g2.symm, g3.symm, e4, e5, e6, e7⟩

theorem mapUsage_left_trigger (r : XUSB_REPORT) (value : Nat) (lmin lmax : Int) {u : Nat}
    (hu : u ∈ [0x33, 0x36, 0xc5]) :
    mapUsage r u value lmin lmax
      = match scale_axis (toLong (value : Int)) lmin lmax 0 255 with
        | .error f => .error f
        | .ok s => .ok { r with bLeftTrigger := toByte s } := by
  simp only [List.mem_cons, List.mem_singleton, List.not_mem_nil, or_false] at hu
  rcases hu with h | h | h <;> subst h <;> rfl

theorem mapUsage_right_trigger (r : XUSB_REPORT) (value : Nat) (lmin lmax : Int) {u : Nat}
    (hu : u ∈ [0x34, 0x37, 0xc4]) :
    mapUsage r u value lmin lmax
      = match scale_axis (toLong (value : Int)) lmin lmax 0 255 with
        | .error f => .error f
        | .ok s => .ok { r with bRightTrigger := toByte s } := by
  simp only [List.mem_cons, List.mem_singleton, List.not_mem_nil, or_false] at hu
  rcases hu with h | h | h <;> subst h <;> rfl

/-- C12. Trigger aliases: for every raw value and logical range, a single value
usage `0x33`, `0x36` or `0xc5` each set `bLeftTrigger` to the same byte, namely
`scale_axis(value, logical_min, logical_max, 0, 255)` truncated to 8 bits, and
leave `bRightTrigger` at 0; symmetrically the usages `0x34`, `0x37` and `0xc4`
each set `bRightTrigger` to that byte and leave `bLeftTrigger` at 0.  When
`scale_axis` has no defined result the mapping stops with the same fault. -/
theorem trigger_aliases (usages : List Nat) (prior : XUSB_REPORT) (value : Nat)
    (lmin lmax : Int) :
    (∀ u ∈ [0x33, 0x36, 0xc5],
      match scale_axis (toLong (value : Int)) lmin lmax 0 255 with
      | .ok s => ∃ r, parse_and_map_report ⟨usages, [⟨u, some value, lmin, lmax⟩]⟩ prior = .ok r
          ∧ r.bLeftTrigger = toByte s ∧ r.bRightTrigger = 0
      | .error f =>
        parse_and_map_report ⟨usages, [⟨u, some value, lmin, lmax⟩]⟩ prior = .error f)
    ∧ (∀ u ∈ [0x34, 0x37, 0xc4],
      match scale_axis (toLong (value : Int)) lmin lmax 0 255 with
      | .ok s => ∃ r, parse_and_map_report ⟨usages, [⟨u, some value, lmin, lmax⟩]⟩ prior = .ok r
          ∧ r.bRightTrigger = toByte s ∧ r.bLeftTrigger = 0
      | .error f =>
        parse_and_map_report ⟨usages, [⟨u, some value, lmin, lmax⟩]⟩ prior = .error f) := by
  constructor
  · intro u hu
    rw [parse_single_value, mapUsage_left_trigger _ _ _ _ hu]
    cases scale_axis (toLong (value : Int)) lmin lmax 0 255 with
    | error f => rfl
    | ok s => exact ⟨_, rfl, rfl, rfl⟩
  · intro u hu
    rw [parse_single_value, mapUsage_right_trigger _ _ _ _ hu]
    cases scale_axis (toLong (value : Int)) lmin lmax 0 255 with
    | error f => rfl
    | ok s => exact ⟨_, rfl, rfl, rfl⟩

theorem foldl_buttonBit_eq_orBits (us : List Nat) (w : Nat) :
    us.foldl (fun w u => w ||| buttonBit u) w = w ||| orBits us := by
  induction us generalizing w with
  | nil => exact (Nat.or_zero w).symm
  | cons u us ih =>
    rw [List.foldl_cons, ih, orBits, Nat.or_assoc]

theorem orBits_testBit (us : List Nat) (i : Nat) :
    (orBits us).testBit i = us.any (fun u => (buttonBit u).testBit i) := by
  induction us with
  | nil => simp [orBits]
  | cons u us ih => simp [orBits, Nat.testBit_or, ih]

theorem orBits_congr {us us2 : List Nat} (h : ∀ u, u ∈ us ↔ u ∈ us2) :
    orBits us = orBits us2 := by
  apply Nat.eq_of_testBit_eq
  intro i
  rw [orBits_testBit, orBits_testBit, Bool.eq_iff_iff, List.any_eq_true, List.any_eq_true]
  constructor
  · rintro ⟨u, hu, hp⟩
    exact ⟨u, (h u).mp hu, hp⟩
  · rintro ⟨u, hu, hp⟩
    exact ⟨u, (h u).mpr hu, hp⟩

theorem orBits_filter (us : List Nat) :
    orBits (us.filter (fun u => decide (buttonBit u ≠ 0))) = orBits us := by
  induction us with
  | nil => rfl
  | cons u us ih =>
    by_cases hu : buttonBit u = 0
    · rw [List.filter_cons_of_neg (by simpa using hu), ih, orBits, hu, Nat.zero_or]
    · rw [List.filter_cons_of_pos (by simpa using hu), orBits, ih, orBits]

theorem buttonBit_upper (u : Nat) : buttonBit u &&& 0xFFF0 = buttonBit u := by
  unfold buttonBit
  split <;> rfl

theorem orBits_upper (us : List Nat) : orBits us &&& 0xFFF0 = orBits us := by
  induction us with
  | nil => rfl
  | cons u us ih => rw [orBits, lor_land_distrib, buttonBit_upper, ih]

theorem orBits_dpad (us : List Nat) : orBits us &&& dpadMask = 0 := by
  induction us with
  | nil => rfl
  | cons u us ih => rw [orBits, lor_land_distrib, buttonBit_dpad, ih]; rfl

theorem hatBits_upper (h : Nat) : hatBits h &&& 0xFFF0 = 0 := by
  unfold hatBits
  split <;> rfl

theorem hatOf_dpad (c : ValueCap) : hatOf c &&& dpadMask = hatOf c := by
  unfold hatOf
  split
  · rfl
  · split_ifs
    · exact hatBits_dpad _
    · rfl

theorem hatOf_upper (c : ValueCap) : hatOf c &&& 0xFFF0 = 0 := by
  unfold hatOf
  split
  · rfl
  · split_ifs
    · exact hatBits_upper _
    · rfl

theorem hatMask_dpad (vs : List ValueCap) : hatMask vs &&& dpadMask = hatMask vs := by
  induction vs with
  | nil => rfl
  | cons c vs ih => rw [hatMask, lor_land_distrib, hatOf_dpad, ih]

theorem hatMask_upper (vs : List ValueCap) : hatMask vs &&& 0xFFF0 = 0 := by
  induction vs with
  | nil => rfl
  | cons c vs ih => rw [hatMask, lor_land_distrib, hatOf_upper, ih]; rfl

theorem mapValue_wButtons {a a2 : XUSB_REPORT} {c : ValueCap}
    (h : mapValue a c = .ok a2) : a2.wButtons = a.wButtons ||| hatOf c := by
  unfold mapValue at h
  unfold hatOf
  cases hv : c.value with
  | none =>
    rw [hv] at h
    cases h
    exact (Nat.or_zero _).symm
  | some value =>
    rw [hv] at h
    simp only at h ⊢
    unfold mapUsage at h
    split at h
    case h_11 heq =>
      rw [mapHat_eq] at h
      simp only [heq, true_and]
      split_ifs at h ⊢
      · cases h; rfl
      · cases h; exact (Nat.or_zero _).symm
    case h_12 n1 n2 n3 n4 n5 n6 n7 n8 n9 n10 n11 =>
      cases h
      rw [if_neg (fun k => n11 k.1)]
      exact (Nat.or_zero _).symm
    all_goals
      rename_i heq
      generalize scale_axis _ _ _ _ _ = res at h
      cases res with
      | error f => cases h
      | ok s =>
        cases h
        rw [if_neg (fun k => absurd k.1 (by rw [heq]; decide))]
        exact (Nat.or_zero _).symm

theorem mapValues_wButtons (vs : List ValueCap) {a a2 : XUSB_REPORT}
    (h : mapValues vs a = .ok a2) : a2.wButtons = a.wButtons ||| hatMask vs := by
  induction vs generalizing a with
  | nil =>
    simp only [mapValues] at h
    cases h
    exact (Nat.or_zero _).symm
  | cons c vs ih =>
    unfold mapValues at h
    cases hc : mapValue a c with
    | error f => rw [hc] at h; cases h
    | ok a1 =>
      rw [hc] at h
      simp only at h
      rw [ih h, mapValue_wButtons hc, hatMask, Nat.or_assoc]

theorem parse_wButtons {input : DecodedInput} {prior r : XUSB_REPORT}
    (h : parse_and_map_report input prior = .ok r) :
    r.wButtons = orBits input.usages ||| hatMask input.values := by
  unfold parse_and_map_report at h
  simp only [foldl_mapButton_eq] at h
  rw [mapValues_wButtons input.values h]
  show input.usages.foldl (fun w u => w ||| buttonBit u) 0 ||| _ = _
  rw [foldl_buttonBit_eq_orBits, Nat.zero_or]

theorem hatMask_of_not_touches {vs : List ValueCap} (h : touches 0x39 vs = false) :
    hatMask vs = 0 := by
  induction vs with
  | nil => rfl
  | cons c vs ih =>
    simp only [touches, List.any_cons, Bool.or_eq_false_iff] at h
    have h2 : hatOf c = 0 := by
      unfold hatOf
      cases hv : c.value with
      | none => rfl
      | some value =>
        simp only
        rw [if_neg]
        intro k
        have := h.1
        simp [hv, k.1] at this
    rw [hatMask, h2, ih (by simpa [touches] using h.2)]
    rfl

/-- C13. Button bitmask: for every list of asserted button usages and every
value table without an extracted hat value, `wButtons` equals the bitwise OR
of the table bits of the recognised usages (`orBits`); usages outside the table
contribute nothing, and the result is unchanged by reordering or duplicating
entries of the list (it depends only on which usages occur). -/
theorem button_bitmask (usages usages2 : List Nat) (values : List ValueCap)
    (prior : XUSB_REPORT) (hhat : touches 0x39 values = false)
    (hsame : ∀ u, u ∈ usages ↔ u ∈ usages2) :
    (∃ r, parse_and_map_report ⟨usages, []⟩ prior = .ok r ∧ r.wButtons = orBits usages)
      ∧ (∀ r, parse_and_map_report ⟨usages, values⟩ prior = .ok r →
          r.wButtons = orBits usages)
      ∧ orBits (usages.filter (fun u => decide (buttonBit u ≠ 0))) = orBits usages
      ∧ orBits usages2 = orBits usages := by
  refine ⟨?_, ?_, orBits_filter usages, (orBits_congr hsame).symm⟩
  · refine ⟨_, rfl, ?_⟩
    have := @parse_wButtons ⟨usages, []⟩ prior _ rfl
    rw [this]
    exact Nat.or_zero _
  · intro r hr
    have := parse_wButtons hr
    rw [this]
    show orBits usages ||| hatMask values = orBits usages
    rw [hatMask_of_not_touches hhat]
    exact Nat.or_zero _

theorem button_bitmask_witness :
    (∃ r, parse_and_map_report ⟨[1, 99, 2], []⟩ ⟨0, 0, 0, 0, 0, 0, 0⟩ = .ok r
        ∧ r.wButtons = orBits [1, 99, 2])
      ∧ (∀ r, parse_and_map_report ⟨[1, 99, 2], [⟨0x30, some 255, 0, 255⟩]⟩
            ⟨0, 0, 0, 0, 0, 0, 0⟩ = .ok r → r.wButtons = orBits [1, 99, 2])
      ∧ orBits ([1, 99, 2].filter (fun u => decide (buttonBit u ≠ 0))) = orBits [1, 99, 2]
      ∧ orBits [2, 1, 1, 99] = orBits [1, 99, 2] :=
  button_bitmask [1, 99, 2] [2, 1, 1, 99] [⟨0x30, some 255, 0, 255⟩] ⟨0, 0, 0, 0, 0, 0, 0⟩
    (by decide) (by intro u; simp; tauto)

/-- C16. Button and directional-pad bits do not interfere: for every decoded
input whose mapping returns, the final `wButtons` is the OR of the button
contribution `orBits` and the hat contribution `hatMask`; the directional bits
(mask `0x000F`) are the hat contribution, which depends only on the capability
entries of the hat usage `0x39` and is never set by a button usage; the
remaining bits (mask `0xFFF0`) are the button contribution, which depends only
on the asserted button usages and is never set or cleared by a value usage. -/
theorem buttons_dpad_independent (input input2 : DecodedInput)
    (prior prior2 r r2 : XUSB_REPORT)
    (hr : parse_and_map_report input prior = .ok r)
    (hr2 : parse_and_map_report input2 prior2 = .ok r2) :
    r.wButtons = orBits input.usages ||| hatMask input.values
      ∧ r.wButtons &&& 0x000F = hatMask input.values
      ∧ r.wButtons &&& 0xFFF0 = orBits input.usages
      ∧ orBits input.usages &&& 0x000F = 0
      ∧ hatMask input.values &&& 0xFFF0 = 0
      ∧ (input.values.filter (fun c => decide (c.usage = 0x39))
            = input2.values.filter (fun c => decide (c.usage = 0x39)) →
          r.wButtons &&& 0x000F = r2.wButtons &&& 0x000F)
      ∧ (input.usages = input2.usages → r.wButtons &&& 0xFFF0 = r2.wButtons &&& 0xFFF0) := by
  have hatMask_filter : ∀ vs : List ValueCap,
      hatMask (vs.filter (fun c => decide (c.usage = 0x39))) = hatMask vs := by
    intro vs
    induction vs with
    | nil => rfl
    | cons c vs ih =>
      by_cases hc : c.usage = 0x39
      · rw [List.filter_cons_of_pos (by simpa using hc), hatMask, ih, hatMask]
      · have h0 : hatOf c = 0 := by
          unfold hatOf
          split
          · rfl
          · rw [if_neg (fun k => hc k.1)]
        rw [List.filter_cons_of_neg (by simpa using hc), ih, hatMask, h0, Nat.zero_or]
  have low : ∀ (i : DecodedInput) (x : XUSB_REPORT),
      x.wButtons = orBits i.usages ||| hatMask i.values →
      x.wButtons &&& 0x000F = hatMask i.values := by
    intro i x hx
    rw [hx, lor_land_distrib]
    have h1 : orBits i.usages &&& 0x000F = 0 := orBits_dpad i.usages
    have h2 : hatMask i.values &&& 0x000F = hatMask i.values := hatMask_dpad i.values
    rw [h1, h2, Nat.zero_or]
  have high : ∀ (i : DecodedInput) (x : XUSB_REPORT),
      x.wButtons = orBits i.usages ||| hatMask i.values →
      x.wButtons &&& 0xFFF0 = orBits i.usages := by
    intro i x hx
    rw [hx, lor_land_distrib, orBits_upper, hatMask_upper, Nat.or_zero]
  have w1 := parse_wButtons hr
  have w2 := parse_wButtons hr2
  refine ⟨w1, low input r w1, high input r w1, orBits_dpad input.usages,
    hatMask_upper input.values, ?_, ?_⟩
  · intro hf
    rw [low input r w1, low input2 r2 w2, ← hatMask_filter input.values,
      ← hatMask_filter input2.values, hf]
  · intro hu
    rw [high input r w1, high input2 r2 w2, hu]

theorem buttons_dpad_independent_witness :
    parse_and_map_report ⟨[1], [⟨0x39, some 0, 0, 7⟩]⟩ ⟨0, 0, 0, 0, 0, 0, 0⟩
        = .ok ⟨0x1001, 0, 0, 0, 0, 0, 0⟩
      ∧ parse_and_map_report ⟨[1, 2], [⟨0x39, some 0, 0, 7⟩, ⟨0x30, none, 0, 255⟩]⟩
          ⟨0, 0, 0, 7, 0, 0, 0⟩ = .ok ⟨0x3001, 0, 0, 7, 0, 0, 0⟩
      ∧ (0x1001 : Nat) = orBits [1] ||| hatMask [⟨0x39, some 0, 0, 7⟩]
      ∧ (0x1001 : Nat) &&& 0x000F = (0x3001 : Nat) &&& 0x000F :=
  have h := buttons_dpad_independent ⟨[1], [⟨0x39, some 0, 0, 7⟩]⟩
    ⟨[1, 2], [⟨0x39, some 0, 0, 7⟩, ⟨0x30, none, 0, 255⟩]⟩ ⟨0, 0, 0, 0, 0, 0, 0⟩
    ⟨0, 0, 0, 7, 0, 0, 0⟩ ⟨0x1001, 0, 0, 0, 0, 0, 0⟩ ⟨0x3001, 0, 0, 7, 0, 0, 0⟩ rfl rfl
  ⟨rfl, rfl, h.1, h.2.2.2.2.2.1 rfl⟩

theorem pollRun_failed (s : LoopState) (evs : List ReadEvent) :
    pollRun s (.failed :: evs) = pollRun s evs := by
  rfl

/-- C15. Read failure is transparent to output: a failed read, and a read of
zero bytes, leave the loop state (output report and pushed reports) unchanged
and push nothing, whereas a successful read of at least one byte pushes the
mapped report; so for every prior state and every three reports, one failed
read followed by three successful reads ends in the same state, and has pushed
as its last report exactly the report, as three successful reads alone. -/
theorem read_failure_transparent (s : LoopState) (n1 n2 n3 : Nat) (a b c : DecodedInput) :
    pollStep s .failed = .ok s
      ∧ (∀ input, pollStep s (.read 0 input) = .ok s)
      ∧ (∀ n input r, 0 < n → parse_and_map_report input s.xbox_report = .ok r →
          pollStep s (.read n input) = .ok { xbox_report := r, pushed := s.pushed ++ [r] })
      ∧ pollRun s [.failed, .read n1 a, .read n2 b, .read n3 c]
          = pollRun s [.read n1 a, .read n2 b, .read n3 c]
      ∧ (pollRun s [.failed, .read n1 a, .read n2 b, .read n3 c]).map
            (fun st => st.pushed.getLast?)
          = (pollRun s [.read n1 a, .read n2 b, .read n3 c]).map
            (fun st => st.pushed.getLast?) := by
  refine ⟨rfl, fun _ => rfl, ?_, pollRun_failed s _, ?_⟩
  · intro n input r hn hr
    unfold pollStep
    simp only [gt_iff_lt, hn, if_true, hr]
  · rw [pollRun_failed]

end XiaomiController
